import Mathlib

/-!
Shallow embedding of the core of the Arena backend (`src/backend/src/arena`),
covering:

* `agents/base_agent.py` — `BaseAgent.parse_json_response` (JSON fallback);
* `llm/rate_control.py` — `with_backoff` (retry with exponential backoff and jitter);
* `ml/ranking.py` — `cosine_similarity`, `normalize_distance`, `kill_shot_overlap`,
  `recency_score`, `build_feature_vector`, `mmr_select`;
* `vectorstore/historical_store.py` — `HistoricalStore._diversity_rerank`;
* `routers/arena.py` — `execute_debate`'s `append_event` closure, its failure
  handler, and the historical-enrichment step.

Python floats are modelled as exact numbers (`ℚ` where the code only uses field
operations and comparisons, `ℝ` where square roots appear); machine-level
rounding is out of scope.  Dictionary fields that may be absent are modelled as
`Option`; Python truthiness of the relevant values is modelled explicitly.
-/

namespace Arena

/-! ### Python string primitives used by `BaseAgent.parse_json_response` -/

/-- The six ASCII characters removed by Python's `str.strip()`. -/
def isPyWhitespace (c : Char) : Bool :=
  c = ' ' || c = '\t' || c = '\n' || c = '\r' || c = '\x0b' || c = '\x0c'

/-- Python `str.strip()`: remove leading and trailing whitespace. -/
def pyStrip (s : String) : String :=
  ⟨((s.data.dropWhile isPyWhitespace).reverse.dropWhile isPyWhitespace).reverse⟩

/-- Python `str.startswith(p)`. -/
def pyStartsWith (s p : String) : Bool :=
  p.data.isPrefixOf s.data

/-- Python `str.endswith(p)`. -/
def pyEndsWith (s p : String) : Bool :=
  p.data.isSuffixOf s.data

/-- Python slicing `s[n:]`. -/
def pyDrop (s : String) (n : Nat) : String :=
  ⟨s.data.drop n⟩

/-- Python slicing `s[:-n]` (for `n ≥ 1`; empty result when `len(s) ≤ n`). -/
def pyDropLast (s : String) (n : Nat) : String :=
  ⟨s.data.take (s.data.length - n)⟩

/-! ### `BaseAgent.parse_json_response` (base_agent.py lines 75–125)

`json.loads` is modelled as an oracle `jsonParse : String → Option J`:
`some` is a successful parse into a JSON value `J`, `none` is a
`json.JSONDecodeError`.  The three possible outcomes of the method are a parsed
value, the plain-text fallback dictionary
`{"response": content, "raw_response": response, "parsed_as": "plain_text"}`,
or a raised `ValueError`. -/

inductive PyParseResult (J : Type) where
  /-- `json.loads` succeeded; the parsed value is returned. -/
  | ok (v : J)
  /-- Fallback dictionary: `response` field (the stripped content) and
  `raw_response` field (the original raw response). -/
  | fallbackDict (resp : String) (raw : String)
  /-- A raised `ValueError` with its message. -/
  | valueError (msg : String)
  deriving DecidableEq

/-- The content-normalisation pipeline of `parse_json_response`: strip, remove
markdown code fences, strip again (lines 91–108). -/
def strippedContent (response : String) : String :=
  let content := pyStrip response
  let content := if pyStartsWith content "```json" then pyDrop content 7 else content
  let content := if pyStartsWith content "```" then pyDrop content 3 else content
  let content := if pyEndsWith content "```" then pyDropLast content 3 else content
  pyStrip content

/-- `BaseAgent.parse_json_response` (lines 75–125).  `name` is `self.name`,
used only in the `ValueError` message.  The debug prints on stderr are pure
observability and are not modelled. -/
def parse_json_response {J : Type} (jsonParse : String → Option J)
    (name : String) (response : String) : PyParseResult J :=
  let content := strippedContent response
  if content = "" then
    .valueError (name ++ " returned empty response after code block removal")
  else
    match jsonParse content with
    | some v => .ok v
    | none => .fallbackDict content response

/-! ### `with_backoff` (rate_control.py lines 26–68)

The operation is modelled as `op : Nat → Except E A`, giving the outcome of the
`n`-th invocation (0-indexed); `random.random()` is modelled as a stream
`jitter : Nat → ℚ` of draws, indexed by the value of `attempts` at the time of
the draw.  The `or`-defaulting of the three configuration arguments against
`settings` (lines 47–49) is left to the caller: the parameters below are the
effective values.  The metric counters and log lines are not modelled. -/

/-- Observable outcome of one `with_backoff` run: the returned value or the
exception that propagated, the number of invocations of `func`, and the list of
delays passed to `asyncio.sleep`, in order. -/
structure BackoffResult (E A : Type) where
  outcome : Except E A
  calls : Nat
  delays : List ℚ

/-- The `while True` loop of `with_backoff`.  `attempts` failures have happened
so far; `fuel` bounds the remaining iterations (the caller passes
`max_attempts`, which the loop never exceeds, so the `fuel = 0` fallback is
only reached when `max_attempts ≤ attempts + 1` and agrees with the raise
branch). -/
def backoffGo {E A : Type} (op : Nat → Except E A) (jitter : Nat → ℚ)
    (maxAttempts : Nat) (baseDelay maxDelay : ℚ) :
    Nat → Nat → List ℚ → BackoffResult E A
  | fuel, attempts, delays =>
    match op attempts with
    | .ok a => ⟨.ok a, attempts + 1, delays⟩
    | .error e =>
      match fuel with
      | 0 => ⟨.error e, attempts + 1, delays⟩
      | fuel + 1 =>
        if maxAttempts ≤ attempts + 1 then
          ⟨.error e, attempts + 1, delays⟩
        else
          backoffGo op jitter maxAttempts baseDelay maxDelay fuel (attempts + 1)
            (delays ++ [min maxDelay (baseDelay * 2 ^ attempts) *
              (7/10 + 3/5 * jitter (attempts + 1))])

/-- `with_backoff(func, ...)`: run the retry loop from zero attempts. -/
def with_backoff {E A : Type} (op : Nat → Except E A) (jitter : Nat → ℚ)
    (maxAttempts : Nat) (baseDelay maxDelay : ℚ) : BackoffResult E A :=
  backoffGo op jitter maxAttempts baseDelay maxDelay maxAttempts 0 []

/-- The delay slept after the `n`-th failed attempt (`n ≥ 1`, line 65–66):
exponential growth capped at `maxDelay`, then multiplied by the jitter factor. -/
def backoffDelay (jitter : Nat → ℚ) (baseDelay maxDelay : ℚ) (n : Nat) : ℚ :=
  min maxDelay (baseDelay * 2 ^ (n - 1)) * (7/10 + 3/5 * jitter n)

/-! ### Generic stable descending insertion sort

Models Python's stable `list.sort(key=..., reverse=True)` / `sorted(...,
reverse=True)`: an element is inserted after all elements whose key is greater
than or equal to its own, so elements with equal keys keep their original
relative order. -/

/-- Insert `c` into `l` before the first element with a strictly smaller key. -/
def insertDescBy {α β : Type} [LinearOrder β] (key : α → β) (c : α) :
    List α → List α
  | [] => [c]
  | x :: xs => if key x < key c then c :: x :: xs else x :: insertDescBy key c xs

/-- Stable sort by `key`, descending. -/
def sortDescBy {α β : Type} [LinearOrder β] (key : α → β) (l : List α) : List α :=
  l.foldl (fun acc c => insertDescBy key c acc) []

/-! ### `ml/ranking.py`

Python floats are modelled as `ℝ` because `cosine_similarity` takes square
roots.  The `Candidate` dataclass fields `document` (opaque payload) and
`features` (never read by `mmr_select`) are omitted from the model. -/

/-- `VERDICT_SEVERITY.get(verdict, 0.5)` (lines 15–20 and 137). -/
noncomputable def verdictSeverityLookup (verdict : String) : ℝ :=
  if verdict = "Proceed" then 0.2
  else if verdict = "NeedsMoreData" then 0.4
  else if verdict = "Pivot" then 0.6
  else if verdict = "Kill" then 1.0
  else 0.5

/-- `cosine_similarity` (lines 62–71).  `not vec` truthiness on a list is
emptiness. -/
noncomputable def cosine_similarity (vec_a vec_b : List ℝ) : ℝ :=
  if vec_a = [] ∨ vec_b = [] ∨ vec_a.length ≠ vec_b.length then 0
  else
    let dot := (List.zipWith (fun a b => a * b) vec_a vec_b).sum
    let norm_a := Real.sqrt ((vec_a.map (fun a => a * a)).sum)
    let norm_b := Real.sqrt ((vec_b.map (fun b => b * b)).sum)
    if norm_a = 0 ∨ norm_b = 0 then 0 else dot / (norm_a * norm_b)

/-- `normalize_distance` (lines 74–78). -/
noncomputable def normalize_distance (distance : ℝ) : ℝ :=
  if distance < 0 then 0 else 1 / (1 + distance)

/-- A character matched by the regex class `[a-z0-9]` of `_token_set`. -/
def isTokenChar (c : Char) : Bool :=
  ('a' ≤ c && c ≤ 'z') || ('0' ≤ c && c ≤ '9')

/-- Accumulate maximal `[a-z0-9]+` runs, mirroring `re.findall` on the
lower-cased text.  `acc` holds the current run, reversed. -/
def tokenRunsAux : List Char → List Char → List String
  | [], acc => if acc.isEmpty then [] else [⟨acc.reverse⟩]
  | c :: cs, acc =>
    if isTokenChar c then tokenRunsAux cs (c :: acc)
    else if acc.isEmpty then tokenRunsAux cs []
    else ⟨acc.reverse⟩ :: tokenRunsAux cs []

/-- `_token_set` (lines 81–83): the set of `[a-z0-9]+` tokens of the
lower-cased text, modelled as a deduplicated list. -/
def tokenSet (text : String) : List String :=
  (tokenRunsAux (text.data.map Char.toLower) []).dedup

/-- One entry of a `kill_shots` list: a dict with optional `title` and
`description` string values (`ks.get(..., "")`). -/
structure KillShot where
  title : Option String
  description : Option String
  deriving DecidableEq

/-- `kill_shot_overlap` (lines 86–102): token-set Jaccard similarity between
the kill-shot titles+descriptions and the idea text.  The `isinstance(ks,
dict)` guard always passes in this model.  `not idea_text` truthiness covers
both `None` and the empty string. -/
noncomputable def kill_shot_overlap (kill_shots : List KillShot)
    (idea_text : Option String) : ℝ :=
  if kill_shots = [] ∨ idea_text.getD "" = "" then 0
  else
    let idea_tokens := tokenSet (idea_text.getD "")
    if idea_tokens = [] then 0
    else
      let ks_tokens := (kill_shots.flatMap (fun ks =>
        tokenSet (ks.title.getD "") ++ tokenSet (ks.description.getD ""))).dedup
      if ks_tokens = [] then 0
      else
        let intersection := (idea_tokens.filter (fun t => ks_tokens.contains t)).length
        let union := idea_tokens.length +
          (ks_tokens.filter (fun t => ¬ idea_tokens.contains t)).length
        if union ≠ 0 then (intersection : ℝ) / (union : ℝ) else 0

/-- `recency_score` (lines 105–115).  The oracle `daysSince` models
`datetime.fromisoformat` together with the current time: it returns the
clamped `max((now - ts).days, 0)` for a parseable timestamp and `none` when
parsing raises.  `not timestamp_iso` covers both `None` and `""`. -/
noncomputable def recency_score (daysSince : String → Option Nat)
    (timestamp_iso : Option String) : ℝ :=
  if timestamp_iso.getD "" = "" then 0
  else
    match daysSince (timestamp_iso.getD "") with
    | none => 0
    | some days => 1 / (1 + (days : ℝ))

/-- The fixed-key feature dict produced by `build_feature_vector`
(lines 141–148). -/
structure FeatureVector where
  semantic_similarity : ℝ
  domain_match : ℝ
  verdict_severity : ℝ
  confidence_weight : ℝ
  kill_shot_overlap : ℝ
  recency : ℝ

/-- The `candidate` dict argument of `build_feature_vector`: only the keys the
function reads, each `Option` to model `.get` defaults. -/
structure RankCandidateDict where
  distance : Option ℝ
  verdict_decision : Option String
  kill_shots : List KillShot

/-- The `metadata` dict argument of `build_feature_vector`.  For `confidence`,
the outer `Option` is key presence and the inner `Option` distinguishes a
stored `None` from a stored float. -/
structure RankMetadata where
  verdict_decision : Option String
  confidence : Option (Option ℝ)
  timestamp : Option String
  domain : Option String

/-- Python `x or y` for an optional string `x` (`None` and `""` are falsy). -/
def pyOrStr (a : Option String) (b : String) : String :=
  match a with
  | none => b
  | some s => if s = "" then b else s

/-- Python `float(c or 0.0)` for an optional float `c` (`None` and `0.0` are
falsy). -/
noncomputable def pyFloatOrZero (c : Option ℝ) : ℝ :=
  match c with
  | none => 0
  | some v => if v = 0 then 0 else v

/-- `build_feature_vector` (lines 118–148). -/
noncomputable def build_feature_vector (daysSince : String → Option Nat)
    (candidate : RankCandidateDict) (metadata : RankMetadata)
    (query_embedding : List ℝ) (candidate_embedding : Option (List ℝ))
    (idea_domain : Option String) (idea_text : Option String) : FeatureVector :=
  let distance := candidate.distance.getD 0
  let verdict := pyOrStr metadata.verdict_decision (candidate.verdict_decision.getD "")
  let confidence : Option ℝ :=
    match metadata.confidence with
    | none => some (1/2)
    | some c => c
  let similarity := normalize_distance distance
  let similarity :=
    match candidate_embedding with
    | none => similarity
    | some ce => max similarity (cosine_similarity query_embedding ce)
  let domain_match : ℝ :=
    if idea_domain.getD "" ≠ "" ∧ metadata.domain = idea_domain then 1 else 0
  { semantic_similarity := similarity
    domain_match := domain_match
    verdict_severity := verdictSeverityLookup verdict
    confidence_weight := pyFloatOrZero confidence
    kill_shot_overlap := kill_shot_overlap candidate.kill_shots idea_text
    recency := recency_score daysSince metadata.timestamp }

/-- The `metadata` dict of a ranking `Candidate`: the two keys `mmr_select`
reads for its diversity statistics. -/
structure MLMetadata where
  domain : Option String
  verdict_decision : Option String

/-- The `Candidate` dataclass (lines 23–33), without the opaque `document`
payload and the `features` dict, which `mmr_select` never reads. -/
structure MLCandidate where
  id : String
  metadata : MLMetadata
  embedding : Option (List ℝ)
  distance : ℝ
  ranker_score : ℝ

/-- Python truthiness of `candidate.embedding`: `None` and `[]` are falsy. -/
def pyTruthyEmbedding (e : Option (List ℝ)) : Bool :=
  match e with
  | some (_ :: _) => true
  | _ => false

/-- `str(metadata.get(key, ""))` for a string-valued metadata key. -/
def pyStrOfGet (o : Option String) : String := o.getD ""

/-- The per-selected-item similarity term of the MMR penalty (line 185):
`cosine_similarity(candidate.embedding, s.embedding) if s.embedding else 0.0`. -/
noncomputable def simToSelected (ce : List ℝ) (s : MLCandidate) : ℝ :=
  if pyTruthyEmbedding s.embedding then cosine_similarity ce (s.embedding.getD [])
  else 0

/-- Python `max` over a list, used only on non-empty lists (line 184). -/
noncomputable def listMax : List ℝ → ℝ
  | [] => 0
  | x :: xs => xs.foldl max x

/-- The MMR objective for one candidate against the already-selected items
(lines 180–189). -/
noncomputable def mmrScore (lambda_mult : ℝ) (selected : List MLCandidate)
    (c : MLCandidate) : ℝ :=
  let relevance := c.ranker_score
  let diversity_penalty :=
    if ¬ selected.isEmpty ∧ pyTruthyEmbedding c.embedding then
      (1 - lambda_mult) * listMax (selected.map (simToSelected (c.embedding.getD [])))
    else 0
  lambda_mult * relevance - diversity_penalty

/-- The inner `for candidate in remaining` scan (lines 177–192): running
best score starts at `-1.0` and is improved only strictly, so the scan keeps
the first candidate attaining the maximum MMR score, returned here as its
index into `remaining`. -/
noncomputable def scanBestAux (lambda_mult : ℝ) (selected : List MLCandidate) :
    List MLCandidate → Nat → ℝ → Option Nat → Option Nat
  | [], _, _, best => best
  | c :: rest, i, best_score, best =>
    let m := mmrScore lambda_mult selected c
    if best_score < m then scanBestAux lambda_mult selected rest (i + 1) m (some i)
    else scanBestAux lambda_mult selected rest (i + 1) best_score best

/-- The full scan with its initial `best_score = -1.0`, `best_candidate =
None` state. -/
noncomputable def scanBest (lambda_mult : ℝ)
    (selected remaining : List MLCandidate) : Option Nat :=
  scanBestAux lambda_mult selected remaining 0 (-1) none

/-- `set.add` on a Python set modelled as a duplicate-free list. -/
def insertNew {α : Type} [BEq α] (seen : List α) (x : α) : List α :=
  if seen.contains x then seen else seen ++ [x]

/-- The `while remaining and len(selected) < k` loop of `mmr_select`
(lines 176–199).  `remaining.remove(best_candidate)` removes the first
list element equal to the chosen candidate; since the scan keeps the *first*
index attaining the maximum, that is exactly removal at the returned index.
`fuel` bounds the iteration count; the caller passes `remaining.length`, which
the loop never exceeds since every iteration removes one element. -/
noncomputable def mmrLoop (lambda_mult : ℝ) (k : Nat) :
    Nat → List MLCandidate → List MLCandidate → List String → List String →
    List MLCandidate × List String × List String
  | 0, selected, _, doms, verds => (selected, doms, verds)
  | fuel + 1, selected, remaining, doms, verds =>
    if remaining.isEmpty ∨ k ≤ selected.length then (selected, doms, verds)
    else
      match scanBest lambda_mult selected remaining with
      | none => (selected, doms, verds)
      | some i =>
        match remaining[i]? with
        | none => (selected, doms, verds)
        | some best =>
          mmrLoop lambda_mult k fuel (selected ++ [best]) (remaining.eraseIdx i)
            (insertNew doms (pyStrOfGet best.metadata.domain))
            (insertNew verds (pyStrOfGet best.metadata.verdict_decision))

/-- The diversity statistics returned by `mmr_select` (lines 201–204). -/
structure MMRStats where
  num_unique_domains : Nat
  num_unique_verdicts : Nat
  deriving DecidableEq

/-- `mmr_select` (lines 151–205).  The Python defaults are
`lambda_mult = 0.6`, `k = 5`; `query_embedding` is accepted and unused, as in
the source. -/
noncomputable def mmr_select (candidates : List MLCandidate)
    (query_embedding : List ℝ) (lambda_mult : ℝ) (k : Nat) :
    List MLCandidate × MMRStats :=
  if candidates.isEmpty then ([], ⟨0, 0⟩)
  else
    match sortDescBy (fun c => c.ranker_score) candidates with
    | [] => ([], ⟨0, 0⟩)
    | first :: rest =>
      let doms := insertNew [] (pyStrOfGet first.metadata.domain)
      let verds := insertNew [] (pyStrOfGet first.metadata.verdict_decision)
      let r := mmrLoop lambda_mult k rest.length [first] rest doms verds
      (r.1, ⟨r.2.1.length, r.2.2.length⟩)

/-! ### `HistoricalStore._diversity_rerank` (historical_store.py lines 185–251)

Candidate dicts are built in `retrieve_similar_ideas` (lines 150–165); the
re-ranker reads only `composite_score`, `verdict_decision` and `domain`, so
the model records exactly those three keys (the other entries — summary,
scores, kill shots, recommendations, confidence, distance — are payload
carried through unchanged).  Scores involve only field arithmetic, so they are
modelled as `ℚ`. -/

/-- One candidate dict as consumed by `_diversity_rerank`. -/
structure HistCandidate where
  verdict_decision : Option String
  domain : Option String
  composite_score : ℚ
  deriving DecidableEq

/-- The `for candidate in candidates_sorted` loop of `_diversity_rerank`
(lines 220–249).  `used_verdicts` / `used_domains` are the Python sets,
modelled as duplicate-free lists; the values may be `None`, hence
`Option String`. -/
def drLoop (n_results : Nat) :
    List HistCandidate → List HistCandidate → List (Option String) →
    List (Option String) → List HistCandidate
  | [], final_results, _, _ => final_results
  | c :: rest, final_results, used_verdicts, used_domains =>
    if n_results ≤ final_results.length then final_results
    else if final_results.length = 0 then
      drLoop n_results rest (final_results ++ [c])
        (insertNew used_verdicts c.verdict_decision)
        (insertNew used_domains c.domain)
    else if ¬ used_verdicts.contains c.verdict_decision ∨
        ¬ used_domains.contains c.domain then
      drLoop n_results rest (final_results ++ [c])
        (insertNew used_verdicts c.verdict_decision)
        (insertNew used_domains c.domain)
    else if final_results.length < n_results then
      drLoop n_results rest (final_results ++ [c])
        (insertNew used_verdicts c.verdict_decision)
        (insertNew used_domains c.domain)
    else
      drLoop n_results rest final_results used_verdicts used_domains

/-- `_diversity_rerank` (lines 185–251).  `primary_domain` is accepted and
unused, as in the source. -/
def diversity_rerank (candidates : List HistCandidate) (n_results : Nat)
    (primary_domain : Option String) : List HistCandidate :=
  if candidates.isEmpty then []
  else
    drLoop n_results (sortDescBy (fun c => c.composite_score) candidates) [] [] []

/-! ### `execute_debate` in `routers/arena.py`: session state, `append_event`,
the failure handler and the historical-enrichment step

The Redis-backed session store holds one dict per debate id; `execute_debate`
is the only writer while a debate runs, so `get_debate_state`/
`save_debate_state` round-trips are modelled by threading the snapshot
directly.  Timestamps (`datetime.utcnow().isoformat()`) are oracles passed as
`now` arguments. -/

/-- A transcript event: the keys shared by every event appended in
`execute_debate`.  `round` is `none` for events without a `"round"` key (the
failure handler's error event). -/
structure TranscriptEvent where
  agent : String
  round : Option Nat
  type : String
  text : String
  deriving DecidableEq

/-- One precedent dict as persisted in `historical_precedents` (built in
`retrieve_similar_ideas`, lines 150–165, after score-field cleanup). -/
structure Precedent where
  id : Option String
  domain : Option String
  confidence : Option ℚ
  verdict_decision : Option String
  overall_score : Option ℚ
  kill_shots : List KillShot
  recommendations : List String
  deriving DecidableEq

/-- The session snapshot dict: the fields touched by `append_event`, the
failure handler and the enrichment step.  `Option` models key absence. -/
structure DebateState where
  status : Option String
  round_status : Option String
  transcript : List TranscriptEvent
  current_round : Option Nat
  error : Option String
  idea_domain : Option String
  historical_precedents : Option (List Precedent)
  last_updated : Option String
  deriving DecidableEq

/-- The `append_event` closure (arena.py lines 1528–1541): append to the
transcript, keep an existing `status` (defaulting to `"in_progress"`), take
`current_round` from the event when present, and unconditionally set
`round_status` to `"in_progress"`. -/
def append_event (s : DebateState) (event : TranscriptEvent) (now : String) :
    DebateState :=
  { s with
    transcript := s.transcript ++ [event]
    status := some (s.status.getD "in_progress")
    current_round := some (event.round.getD (s.current_round.getD 0))
    round_status := some "in_progress"
    last_updated := some now }

/-- The `except` failure handler of `execute_debate` (lines 2119–2138):
record `failed` status and the exception text, save, then append a `"error"`
transcript event (which has no `"round"` key). -/
def handleDebateFailure (s : DebateState) (errText : String)
    (now now2 : String) : DebateState :=
  let fail_state :=
    { s with
      status := some "failed"
      round_status := some "failed"
      error := some errText
      last_updated := some now }
  append_event fail_state
    ⟨"System", none, "error", "Debate failed: " ++ errText⟩ now2

/-- Python call semantics for keyword arguments: if any passed keyword is not
a parameter of the callee, the call raises `TypeError` before the body runs. -/
def pyCallKwargs {α : Type} (accepted passed : List String)
    (body : Except String α) : Except String α :=
  if passed.all (fun kw => accepted.contains kw) then body
  else .error "TypeError: unexpected keyword argument"

/-- The call `historical_store.retrieve_similar_ideas(query_embedding=...,
n_results=5, domain_filter=..., idea_text=...)` (arena.py lines 1702–1707)
against the signature `retrieve_similar_ideas(self, query_embedding,
n_results=5, domain_filter=None, verdict_filter=None)`
(historical_store.py lines 79–85). -/
def executeDebateRetrieveCall (body : Except String (List Precedent)) :
    Except String (List Precedent) :=
  pyCallKwargs ["query_embedding", "n_results", "domain_filter", "verdict_filter"]
    ["query_embedding", "n_results", "domain_filter", "idea_text"] body

/-- The historical-enrichment step of `execute_debate` (lines 1677–1759).

`historical_context_text` starts as `""`; the whole block is wrapped in
`try/except Exception: pass`, and the snapshot saves that happened before a
failure persist.  Oracles: `enabled` is `settings.enable_historical_context`;
`embedResult` is the outcome of `embed_texts([idea_summary])` plus the
`embeddings[0]` subscript; `domainResult` the outcome of
`detect_idea_domain`; `retrieveBody` the value `retrieve_similar_ideas`
*would* return if the call reached its body; `fmt` renders the context block
f-strings of lines 1716–1739.  Returns the resulting snapshot and
`historical_context_text`. -/
def historicalEnrichment (s : DebateState) (enabled : Bool)
    (embedResult : Except String (List ℚ))
    (domainResult : Except String String)
    (retrieveBody : Except String (List Precedent))
    (fmt : List Precedent → String) (now : String) : DebateState × String :=
  if ¬ enabled then (s, "")
  else
    match embedResult with
    | .error _ => (s, "")
    | .ok _ =>
      match domainResult with
      | .error _ => (s, "")
      | .ok dom =>
        let s1 := { s with idea_domain := some dom }
        match executeDebateRetrieveCall retrieveBody with
        | .error _ => (s1, "")
        | .ok similar =>
          let s2 := { s1 with historical_precedents := some similar }
          if similar.isEmpty then (s2, "")
          else
            (append_event s2
              ⟨"System", some 2, "historical_context",
                "Retrieved cross-domain patterns. Agents will challenge against these."⟩
              now,
              fmt similar)

/-- A concrete session snapshot that has just failed. -/
def failedSnapshot : DebateState :=
  ⟨some "failed", some "failed",
    [⟨"Judge", some 1, "clarification:start", "Clarification started"⟩],
    some 1, some "boom", none, none, some "t0"⟩

/-- A concrete freshly-created session snapshot. -/
def pendingSnapshot : DebateState :=
  ⟨some "pending", none, [], none, none, none, none, some "t0"⟩

/-- Concrete candidate (nonnegative score) for exercising `mmr_select`. -/
noncomputable def mmrCandA : MLCandidate :=
  ⟨"a", ⟨some "fintech", some "Kill"⟩, none, 0, 1⟩

/-- Concrete candidate (nonnegative score) for exercising `mmr_select`. -/
noncomputable def mmrCandB : MLCandidate :=
  ⟨"b", ⟨some "health", some "Pivot"⟩, none, 0, 0⟩

/-- Concrete candidate with a negative ranker score. -/
noncomputable def mmrNegA : MLCandidate :=
  ⟨"a", ⟨none, none⟩, none, 0, -2⟩

/-- Concrete candidate with a negative ranker score. -/
noncomputable def mmrNegB : MLCandidate :=
  ⟨"b", ⟨none, none⟩, none, 0, -2⟩

end Arena

/-! ## Supporting lemmas -/

namespace Arena

/-- Every delay accumulated by the loop is of the shape `backoffDelay n` for
some attempt index `n ≥ 1`. -/
theorem backoffGo_delays_spec {E A : Type} (op : Nat → Except E A)
    (jitter : Nat → ℚ) (maxAttempts : Nat) (baseDelay maxDelay : ℚ) :
    ∀ (fuel attempts : Nat) (delays : List ℚ),
      (∀ d ∈ delays, ∃ n, 1 ≤ n ∧ d = backoffDelay jitter baseDelay maxDelay n) →
      ∀ d ∈ (backoffGo op jitter maxAttempts baseDelay maxDelay
          fuel attempts delays).delays,
        ∃ n, 1 ≤ n ∧ d = backoffDelay jitter baseDelay maxDelay n := by
  intro fuel
  induction fuel with
  | zero =>
    intro attempts delays h d hd
    rw [backoffGo] at hd
    rcases hop : op attempts with e | a <;> simp only [hop] at hd <;> exact h d hd
  | succ fuel ih =>
    intro attempts delays h d hd
    rw [backoffGo] at hd
    rcases hop : op attempts with e | a <;> simp only [hop] at hd
    · by_cases hle : maxAttempts ≤ attempts + 1
      · rw [if_pos hle] at hd
        exact h d hd
      · rw [if_neg hle] at hd
        refine ih (attempts + 1) _ ?_ d hd
        intro d' hd'
        rcases List.mem_append.1 hd' with hmem | hmem
        · exact h d' hmem
        · rcases List.mem_singleton.1 hmem with rfl
          exact ⟨attempts + 1, Nat.le_add_left 1 attempts, by simp [backoffDelay]⟩
    · exact h d hd

theorem insertDescBy_perm {α β : Type} [LinearOrder β] (key : α → β) (c : α) :
    ∀ l : List α, (insertDescBy key c l).Perm (c :: l)
  | [] => List.Perm.refl _
  | x :: xs => by
    rw [insertDescBy]
    by_cases h : key x < key c
    · rw [if_pos h]
    · rw [if_neg h]
      exact ((insertDescBy_perm key c xs).cons x).trans (List.Perm.swap c x xs)

theorem sortDescBy_aux_perm {α β : Type} [LinearOrder β] (key : α → β) :
    ∀ (l acc : List α),
      (l.foldl (fun a c => insertDescBy key c a) acc).Perm (acc ++ l)
  | [], acc => by simp
  | c :: l, acc => by
    rw [List.foldl_cons]
    refine (sortDescBy_aux_perm key l (insertDescBy key c acc)).trans ?_
    refine (((insertDescBy_perm key c acc).append_right l).trans ?_)
    exact List.perm_middle.symm

theorem sortDescBy_perm {α β : Type} [LinearOrder β] (key : α → β) (l : List α) :
    (sortDescBy key l).Perm l := by
  simpa using sortDescBy_aux_perm key l []

theorem insertDescBy_pairwise {α β : Type} [LinearOrder β] (key : α → β) (c : α)
    (l : List α) (hl : l.Pairwise (fun a b => key b ≤ key a)) :
    (insertDescBy key c l).Pairwise (fun a b => key b ≤ key a) := by
  induction l with
  | nil => simp [insertDescBy]
  | cons x xs ih =>
    rw [insertDescBy]
    rcases List.pairwise_cons.1 hl with ⟨hx, hxs⟩
    by_cases h : key x < key c
    · rw [if_pos h]
      refine List.pairwise_cons.2 ⟨?_, hl⟩
      intro y hy
      rcases List.mem_cons.1 hy with rfl | hy
      · exact h.le
      · exact (hx y hy).trans h.le
    · rw [if_neg h]
      refine List.pairwise_cons.2 ⟨?_, ih hxs⟩
      intro y hy
      rcases List.mem_cons.1 ((insertDescBy_perm key c xs).mem_iff.1 hy) with rfl | hy
      · exact not_lt.1 h
      · exact hx y hy

theorem sortDescBy_pairwise {α β : Type} [LinearOrder β] (key : α → β)
    (l : List α) :
    (sortDescBy key l).Pairwise (fun a b => key b ≤ key a) := by
  suffices h : ∀ (l acc : List α), acc.Pairwise (fun a b => key b ≤ key a) →
      (l.foldl (fun a c => insertDescBy key c a) acc).Pairwise
        (fun a b => key b ≤ key a) by
    exact h l [] (List.Pairwise.nil)
  intro l
  induction l with
  | nil => intro acc hacc; simpa using hacc
  | cons c cs ih =>
    intro acc hacc
    rw [List.foldl_cons]
    exact ih _ (insertDescBy_pairwise key c acc hacc)

theorem sumSq_nonneg (l : List ℝ) : 0 ≤ (l.map (fun a => a * a)).sum := by
  apply List.sum_nonneg
  intro x hx
  rcases List.mem_map.1 hx with ⟨a, -, rfl⟩
  exact mul_self_nonneg a

/-- Cauchy–Schwarz for lists: the square of the dot product is at most the
product of the sums of squares. -/
theorem list_cauchy_schwarz :
    ∀ a b : List ℝ,
      ((List.zipWith (fun x y => x * y) a b).sum) ^ 2 ≤
        ((a.map (fun x => x * x)).sum) * ((b.map (fun x => x * x)).sum)
  | [], b => by simp
  | x :: xs, [] => by simp
  | x :: xs, y :: ys => by
    have ih := list_cauchy_schwarz xs ys
    have hA := sumSq_nonneg xs
    have hB := sumSq_nonneg ys
    simp only [List.zipWith_cons_cons, List.map_cons, List.sum_cons]
    set S := (List.zipWith (fun x y => x * y) xs ys).sum with hS
    set A := (xs.map (fun x => x * x)).sum with hA2
    set B := (ys.map (fun x => x * x)).sum with hB2
    rcases eq_or_lt_of_le hB with hB0 | hBpos
    · have hS0 : S = 0 := by
        have h1 : S ^ 2 ≤ 0 := by rw [← hB0] at ih; simpa using ih
        have h2 : 0 ≤ S ^ 2 := sq_nonneg S
        exact pow_eq_zero_iff (n := 2) (by norm_num) |>.1 (le_antisymm h1 h2)
      rw [hS0, ← hB0]
      nlinarith [mul_nonneg hA (mul_self_nonneg y), mul_nonneg hA (mul_self_nonneg x)]
    · nlinarith [sq_nonneg (x * B - y * S),
        mul_nonneg (add_nonneg (mul_self_nonneg y) hB) (sub_nonneg.2 ih)]

/-- The cosine similarity of the source never exceeds `1`. -/
theorem cosine_similarity_le_one (a b : List ℝ) : cosine_similarity a b ≤ 1 := by
  rw [cosine_similarity]
  split_ifs with h1
  · exact zero_le_one
  · simp only
    split_ifs with h2
    · exact zero_le_one
    · push_neg at h2
      have hA := sumSq_nonneg a
      have hB := sumSq_nonneg b
      have hna : 0 < Real.sqrt ((a.map (fun a => a * a)).sum) :=
        lt_of_le_of_ne (Real.sqrt_nonneg _) (Ne.symm h2.1)
      have hnb : 0 < Real.sqrt ((b.map (fun a => a * a)).sum) :=
        lt_of_le_of_ne (Real.sqrt_nonneg _) (Ne.symm h2.2)
      rw [div_le_one (mul_pos hna hnb)]
      have hdot : (List.zipWith (fun x y => x * y) a b).sum ≤
          |(List.zipWith (fun x y => x * y) a b).sum| := le_abs_self _
      refine hdot.trans ?_
      rw [← Real.sqrt_sq_eq_abs, ← Real.sqrt_mul hA]
      exact Real.sqrt_le_sqrt (list_cauchy_schwarz a b)

theorem simToSelected_le_one (ce : List ℝ) (s : MLCandidate) :
    simToSelected ce s ≤ 1 := by
  rw [simToSelected]
  split_ifs with h
  · exact cosine_similarity_le_one _ _
  · exact zero_le_one

theorem listMax_le (b : ℝ) :
    ∀ l : List ℝ, l ≠ [] → (∀ x ∈ l, x ≤ b) → listMax l ≤ b := by
  have haux : ∀ (xs : List ℝ) (acc : ℝ), acc ≤ b → (∀ x ∈ xs, x ≤ b) →
      xs.foldl max acc ≤ b := by
    intro xs
    induction xs with
    | nil => intro acc hacc _; simpa using hacc
    | cons x xs ih =>
      intro acc hacc hxs
      rw [List.foldl_cons]
      exact ih _ (max_le hacc (hxs x (List.mem_cons_self x xs)))
        (fun y hy => hxs y (List.mem_cons_of_mem x hy))
  intro l hl hall
  match l with
  | [] => exact absurd rfl hl
  | x :: xs =>
    rw [listMax]
    exact haux xs x (hall x (List.mem_cons_self x xs))
      (fun y hy => hall y (List.mem_cons_of_mem x hy))

/-- With `0 < λ ≤ 1` and a nonnegative ranker score, a candidate's MMR score
strictly exceeds the scan's initial running best of `-1`. -/
theorem mmrScore_gt_neg_one (lambda_mult : ℝ) (selected : List MLCandidate)
    (c : MLCandidate) (hl0 : 0 < lambda_mult) (hl1 : lambda_mult ≤ 1)
    (hc : 0 ≤ c.ranker_score) :
    (-1 : ℝ) < mmrScore lambda_mult selected c := by
  rw [mmrScore]
  split_ifs with h
  · rcases h with ⟨hsel, -⟩
    have hne : selected.map (simToSelected (c.embedding.getD [])) ≠ [] := by
      simpa [List.isEmpty_iff] using hsel
    have hmax : listMax (selected.map (simToSelected (c.embedding.getD []))) ≤ 1 := by
      refine listMax_le 1 _ hne ?_
      intro x hx
      rcases List.mem_map.1 hx with ⟨s, -, rfl⟩
      exact simToSelected_le_one _ s
    nlinarith
  · nlinarith

/-- If some element of the remainder beats the running best, the scan returns
an index. -/
theorem scanBestAux_isSome (lambda_mult : ℝ) (selected : List MLCandidate) :
    ∀ (rem : List MLCandidate) (i : Nat) (bs : ℝ) (best : Option Nat),
      ((∃ c ∈ rem, bs < mmrScore lambda_mult selected c) ∨ best.isSome) →
      (scanBestAux lambda_mult selected rem i bs best).isSome := by
  intro rem
  induction rem with
  | nil =>
    intro i bs best h
    rcases h with ⟨c, hc, -⟩ | h
    · exact absurd hc (List.not_mem_nil c)
    · simpa [scanBestAux] using h
  | cons c rest ih =>
    intro i bs best h
    rw [scanBestAux]
    split_ifs with hlt
    · exact ih (i + 1) _ (some i) (Or.inr rfl)
    · refine ih (i + 1) bs best ?_
      rcases h with ⟨d, hd, hdgt⟩ | hs
      · rcases List.mem_cons.1 hd with rfl | hd
        · exact absurd hdgt hlt
        · exact Or.inl ⟨d, hd, hdgt⟩
      · exact Or.inr hs

/-- Any index the scan returns is a valid index into the remainder. -/
theorem scanBestAux_lt (lambda_mult : ℝ) (selected : List MLCandidate) :
    ∀ (rem : List MLCandidate) (i : Nat) (bs : ℝ) (best : Option Nat) (j : Nat),
      scanBestAux lambda_mult selected rem i bs best = some j →
      best = some j ∨ (i ≤ j ∧ j < i + rem.length) := by
  intro rem
  induction rem with
  | nil =>
    intro i bs best j h
    rw [scanBestAux] at h
    exact Or.inl h
  | cons c rest ih =>
    intro i bs best j h
    rw [scanBestAux] at h
    split_ifs at h with hlt
    · rcases ih (i + 1) _ (some i) j h with hbest | ⟨h1, h2⟩
      · rcases Option.some_injective _ hbest with rfl
        exact Or.inr ⟨le_refl i, by simp [List.length_cons]⟩
      · exact Or.inr ⟨(Nat.le_succ i).trans h1,
          by simp only [List.length_cons]; omega⟩
    · rcases ih (i + 1) bs best j h with hbest | ⟨h1, h2⟩
      · exact Or.inl hbest
      · exact Or.inr ⟨(Nat.le_succ i).trans h1,
          by simp only [List.length_cons]; omega⟩

theorem scanBest_valid (lambda_mult : ℝ)
    (selected remaining : List MLCandidate) (j : Nat)
    (h : scanBest lambda_mult selected remaining = some j) :
    j < remaining.length := by
  rcases scanBestAux_lt lambda_mult selected remaining 0 (-1) none j h with h' | ⟨-, h2⟩
  · exact absurd h' (by simp)
  · simpa using h2

/-- The MMR loop only ever appends to `selected`. -/
theorem mmrLoop_prefix (lambda_mult : ℝ) (k : Nat) :
    ∀ (fuel : Nat) (selected remaining : List MLCandidate)
      (doms verds : List String),
      ∃ t, (mmrLoop lambda_mult k fuel selected remaining doms verds).1 =
        selected ++ t := by
  intro fuel
  induction fuel with
  | zero =>
    intro selected remaining doms verds
    exact ⟨[], by rw [mmrLoop]; simp⟩
  | succ fuel ih =>
    intro selected remaining doms verds
    rw [mmrLoop]
    split_ifs with hcond
    · exact ⟨[], by simp⟩
    · rcases hscan : scanBest lambda_mult selected remaining with _ | i
      · exact ⟨[], by simp only [hscan]; simp⟩
      · rcases hget : remaining[i]? with _ | best
        · exact ⟨[], by simp only [hscan, hget]; simp⟩
        · rcases ih (selected ++ [best]) (remaining.eraseIdx i)
            (insertNew doms (pyStrOfGet best.metadata.domain))
            (insertNew verds (pyStrOfGet best.metadata.verdict_decision)) with ⟨t, ht⟩
          refine ⟨best :: t, ?_⟩
          simp only [hscan, hget, ht]
          simp

/-- With `0 < λ ≤ 1` and nonnegative ranker scores the MMR loop always finds a
next candidate, so it stops only at `k` selections or pool exhaustion. -/
theorem mmrLoop_length (lambda_mult : ℝ) (k : Nat)
    (hl0 : 0 < lambda_mult) (hl1 : lambda_mult ≤ 1) :
    ∀ (fuel : Nat) (remaining selected : List MLCandidate)
      (doms verds : List String),
      remaining.length ≤ fuel →
      selected.length ≤ k →
      (∀ c ∈ remaining, 0 ≤ c.ranker_score) →
      (mmrLoop lambda_mult k fuel selected remaining doms verds).1.length =
        min k (selected.length + remaining.length) := by
  intro fuel
  induction fuel with
  | zero =>
    intro remaining selected doms verds hfuel hsel hscores
    have hrem : remaining = [] := List.eq_nil_of_length_eq_zero (Nat.le_zero.1 hfuel)
    subst hrem
    rw [mmrLoop]
    simp only [List.length_nil, Nat.add_zero]
    omega
  | succ fuel ih =>
    intro remaining selected doms verds hfuel hsel hscores
    rw [mmrLoop]
    split_ifs with hcond
    · rcases hcond with hemp | hk
      · have hrem : remaining = [] := List.isEmpty_iff.1 hemp
        subst hrem
        simp only [List.length_nil, Nat.add_zero]
        omega
      · simp only
        omega
    · push_neg at hcond
      rcases hcond with ⟨hemp, hklt⟩
      have hrem : remaining ≠ [] := by
        intro hr; exact hemp (by simp [hr])
      rcases List.exists_cons_of_ne_nil hrem with ⟨r0, rest, hr0⟩
      have hr0mem : r0 ∈ remaining := by rw [hr0]; exact List.mem_cons_self r0 rest
      have hsome : (scanBest lambda_mult selected remaining).isSome := by
        refine scanBestAux_isSome lambda_mult selected remaining 0 (-1) none
          (Or.inl ⟨r0, hr0mem, ?_⟩)
        exact mmrScore_gt_neg_one lambda_mult selected r0 hl0 hl1 (hscores r0 hr0mem)
      rcases Option.isSome_iff_exists.1 hsome with ⟨i, hi⟩
      have hilt : i < remaining.length := scanBest_valid lambda_mult selected remaining i hi
      have hrec := ih (remaining.eraseIdx i) (selected ++ [remaining[i]])
        (insertNew doms (pyStrOfGet remaining[i].metadata.domain))
        (insertNew verds (pyStrOfGet remaining[i].metadata.verdict_decision))
        (by rw [List.length_eraseIdx_of_lt hilt]; omega)
        (by simp only [List.length_append, List.length_singleton]; omega)
        (fun c hc => hscores c (List.mem_of_mem_eraseIdx hc))
      simp only [hi, List.getElem?_eq_getElem hilt, hrec,
        List.length_eraseIdx_of_lt hilt, List.length_append, List.length_singleton]
      omega

/-- The head of a stably-descending-sorted non-empty list carries a maximal
key. -/
theorem sortDescBy_head_max {α β : Type} [LinearOrder β] (key : α → β)
    (l : List α) (first : α) (rest : List α)
    (hs : sortDescBy key l = first :: rest) :
    first ∈ l ∧ ∀ c ∈ l, key c ≤ key first := by
  have hperm := sortDescBy_perm key l
  rw [hs] at hperm
  constructor
  · exact hperm.mem_iff.1 (List.mem_cons_self first rest)
  · intro c hc
    have hc2 : c ∈ first :: rest := hperm.mem_iff.2 hc
    rcases List.mem_cons.1 hc2 with rfl | hc2
    · exact le_refl _
    · have hp := sortDescBy_pairwise key l
      rw [hs] at hp
      exact (List.pairwise_cons.1 hp).1 c hc2

end Arena


/-- C5: given an operation that fails with the same failure on every attempt
and `max_attempts = 3`, `with_backoff` makes exactly 3 invocations of the
operation and then propagates the original failure object itself (the bare
`raise` on line 58 re-raises the caught exception unwrapped). -/
theorem with_backoff_exhausts_three_attempts {E A : Type}
    (op : Nat → Except E A) (jitter : Nat → ℚ) (baseDelay maxDelay : ℚ)
    (e : E) (hop : ∀ n, op n = .error e) :
    (Arena.with_backoff op jitter 3 baseDelay maxDelay).outcome = .error e ∧
    (Arena.with_backoff op jitter 3 baseDelay maxDelay).calls = 3 := by
  simp [Arena.with_backoff, Arena.backoffGo, hop]

/-- Witness for `with_backoff_exhausts_three_attempts` at a concrete
always-failing operation. -/
theorem with_backoff_exhausts_three_attempts_witness :
    (∀ n : Nat, (fun _ : Nat => (Except.error "quota" : Except String Unit)) n
        = .error "quota") ∧
    (Arena.with_backoff (fun _ : Nat => (Except.error "quota" : Except String Unit))
        (fun _ => 1/2) 3 1 8).outcome = .error "quota" ∧
    (Arena.with_backoff (fun _ : Nat => (Except.error "quota" : Except String Unit))
        (fun _ => 1/2) 3 1 8).calls = 3 :=
  ⟨fun _ => rfl,
    with_backoff_exhausts_three_attempts
      (fun _ => (Except.error "quota" : Except String Unit))
      (fun _ => 1/2) 1 8 "quota" (fun _ => rfl)⟩

/-- C6 counterexample: the jitter factor is applied *after* the
`min(max_delay, ...)` cap (lines 65–66), so a slept delay can exceed the
configured maximum delay.  With `base_delay = max_delay = 1`, `max_attempts = 2`
and a jitter draw of `0.9`, the single slept delay is `1.24 > 1`. -/
theorem with_backoff_delay_exceeds_max_delay :
    (Arena.with_backoff (fun _ : Nat => (Except.error () : Except Unit Unit))
        (fun _ => 9/10) 2 1 1).delays = [31/25] ∧
    ¬ ((31 : ℚ)/25 ≤ 1) := by
  constructor
  · simp [Arena.with_backoff, Arena.backoffGo, min_def]
    norm_num
  · norm_num

/-- C6 (amended): each slept delay equals
`min(max_delay, base_delay · 2^(n−1))` multiplied by the jitter factor
`0.7 + 0.6·r_n` with `r_n ∈ [0, 1)`, and is therefore strictly below
`1.3 × max_delay` (not below `max_delay` itself, since the jitter is applied
after the cap). -/
theorem with_backoff_delay_bound {E A : Type} (op : Nat → Except E A)
    (jitter : Nat → ℚ) (maxAttempts : Nat) (baseDelay maxDelay : ℚ)
    (hj : ∀ n, 0 ≤ jitter n ∧ jitter n < 1)
    (hb : 0 ≤ baseDelay) (hm : 0 < maxDelay) :
    ∀ d ∈ (Arena.with_backoff op jitter maxAttempts baseDelay maxDelay).delays,
      (∃ n, 1 ≤ n ∧ d = Arena.backoffDelay jitter baseDelay maxDelay n) ∧
      d < 13/10 * maxDelay := by
  intro d hd
  have hspec := Arena.backoffGo_delays_spec op jitter maxAttempts baseDelay maxDelay
    maxAttempts 0 [] (by simp) d hd
  refine ⟨hspec, ?_⟩
  rcases hspec with ⟨n, -, rfl⟩
  rcases hj n with ⟨hj0, hj1⟩
  have hcap : min maxDelay (baseDelay * 2 ^ (n - 1)) ≤ maxDelay := min_le_left _ _
  have hcap0 : 0 ≤ min maxDelay (baseDelay * 2 ^ (n - 1)) :=
    le_min hm.le (by positivity)
  have hfac0 : (0 : ℚ) < 7/10 + 3/5 * jitter n := by nlinarith
  have hfac : 7/10 + 3/5 * jitter n < 13/10 := by nlinarith
  calc min maxDelay (baseDelay * 2 ^ (n - 1)) * (7/10 + 3/5 * jitter n)
      ≤ maxDelay * (7/10 + 3/5 * jitter n) :=
        mul_le_mul_of_nonneg_right hcap hfac0.le
    _ < maxDelay * (13/10) := by
        exact mul_lt_mul_of_pos_left hfac hm
    _ = 13/10 * maxDelay := by ring

/-- Witness for `with_backoff_delay_bound` at a concrete run. -/
theorem with_backoff_delay_bound_witness :
    (∀ n : Nat, 0 ≤ (fun _ : Nat => (1/2 : ℚ)) n ∧ (fun _ : Nat => (1/2 : ℚ)) n < 1) ∧
    (0 : ℚ) ≤ 1 ∧ (0 : ℚ) < 1 ∧
    (∀ d ∈ (Arena.with_backoff (fun _ : Nat => (Except.error () : Except Unit Unit))
        (fun _ => 1/2) 2 1 1).delays,
      (∃ n, 1 ≤ n ∧ d = Arena.backoffDelay (fun _ => 1/2) 1 1 n) ∧
      d < 13/10 * 1) :=
  ⟨fun _ => by norm_num, by norm_num, by norm_num,
    with_backoff_delay_bound (fun _ => (Except.error () : Except Unit Unit))
      (fun _ => 1/2) 2 1 1 (fun _ => by norm_num) (by norm_num) (by norm_num)⟩

/-- C1 counterexample: an empty, whitespace-only, or fences-only response is
not valid JSON, yet `parse_json_response` *raises* `ValueError` on it
(line 115) instead of returning a fallback result. -/
theorem parse_json_response_raises_on_empty :
    Arena.parse_json_response (J := Unit) (fun _ => none) "Skeptic" "" =
      .valueError "Skeptic returned empty response after code block removal" ∧
    Arena.parse_json_response (J := Unit) (fun _ => none) "Skeptic" "   \n " =
      .valueError "Skeptic returned empty response after code block removal" ∧
    Arena.parse_json_response (J := Unit) (fun _ => none) "Skeptic" "```json\n```" =
      .valueError "Skeptic returned empty response after code block removal" := by
  refine ⟨rfl, rfl, rfl⟩

/-- C1 (amended): for every response whose content is still non-empty after
stripping whitespace and markdown code fences, if that content is not valid
JSON then `parse_json_response` does not raise: it returns the fallback
dictionary whose `raw_response` field is the raw response (and whose
`response` field is the stripped content).  Responses that are empty,
whitespace-only, or consist only of code fences instead raise `ValueError`. -/
theorem parse_json_response_fallback {J : Type} (jsonParse : String → Option J)
    (name response : String)
    (hne : Arena.strippedContent response ≠ "")
    (hfail : jsonParse (Arena.strippedContent response) = none) :
    Arena.parse_json_response jsonParse name response =
      .fallbackDict (Arena.strippedContent response) response := by
  simp [Arena.parse_json_response, hne, hfail]

/-- Witness for `parse_json_response_fallback` on a concrete plain-text
response. -/
theorem parse_json_response_fallback_witness :
    Arena.strippedContent "not json at all" ≠ "" ∧
    (fun _ : String => (none : Option Unit)) (Arena.strippedContent "not json at all") = none ∧
    Arena.parse_json_response (fun _ : String => (none : Option Unit)) "Judge"
        "not json at all" = .fallbackDict (Arena.strippedContent "not json at all")
        "not json at all" :=
  ⟨by decide, rfl,
    parse_json_response_fallback (fun _ => none) "Judge" "not json at all"
      (by decide) rfl⟩

/-- C3 counterexample: for arbitrary real ranker scores `mmr_select` can
return fewer than `k` results.  The inner scan starts its running best at
`-1.0` and selects only candidates whose MMR score strictly exceeds it
(lines 178–192); with two candidates of score `-2` (MMR value
`0.6 · (−2) = −1.2`), only the seeded top candidate is returned although
`n = k = 2`. -/
theorem mmr_select_short_for_negative_scores :
    ([Arena.mmrNegA, Arena.mmrNegB].length = 2) ∧
    (Arena.mmr_select [Arena.mmrNegA, Arena.mmrNegB] [] 0.6 2).1.length = 1 := by
  constructor
  · rfl
  · have h06 : (0.6 : ℝ) = 3/5 := by norm_num
    have hsort : Arena.sortDescBy (fun c => c.ranker_score)
        [Arena.mmrNegA, Arena.mmrNegB] = [Arena.mmrNegA, Arena.mmrNegB] := by
      norm_num [Arena.sortDescBy, Arena.insertDescBy, Arena.mmrNegA, Arena.mmrNegB]
    have hm : Arena.mmrScore (3/5) [Arena.mmrNegA] Arena.mmrNegB = -(6/5 : ℝ) := by
      norm_num [Arena.mmrScore, Arena.pyTruthyEmbedding, Arena.mmrNegB]
    have hscan : Arena.scanBest (3/5) [Arena.mmrNegA] [Arena.mmrNegB] = none := by
      norm_num [Arena.scanBest, Arena.scanBestAux, hm]
    rw [Arena.mmr_select, h06, if_neg (by simp)]
    simp only [hsort, List.length_singleton]
    rw [Arena.mmrLoop]
    simp only [hscan]
    simp

/-- C3 (amended): over `n ≥ k ≥ 1` candidates whose ranker scores are all
nonnegative (as is the case for scores produced by the logistic scorer, which
lie in `(0,1)`), `mmr_select` with `desiredCount = k` and the default
`λ = 0.6` returns exactly `k` results, and the first result is a
highest-scoring candidate among all inputs.  For arbitrary (possibly negative)
real scores the count claim fails, because the scan's running best starts at
`-1.0`. -/
theorem mmr_select_count_and_top (candidates : List Arena.MLCandidate)
    (q : List ℝ) (k : Nat) (hk : 1 ≤ k) (hn : k ≤ candidates.length)
    (hpos : ∀ c ∈ candidates, 0 ≤ c.ranker_score) :
    (Arena.mmr_select candidates q 0.6 k).1.length = k ∧
    ∃ first rest, (Arena.mmr_select candidates q 0.6 k).1 = first :: rest ∧
      first ∈ candidates ∧
      ∀ c ∈ candidates, c.ranker_score ≤ first.ranker_score := by
  have hne : candidates ≠ [] := by
    intro h
    rw [h] at hn
    simp at hn
    omega
  have hnemp : candidates.isEmpty = false := by
    simpa [List.isEmpty_iff] using hne
  have hsortlen : (Arena.sortDescBy (fun c => c.ranker_score) candidates).length =
      candidates.length :=
    (Arena.sortDescBy_perm (fun c => c.ranker_score) candidates).length_eq
  rcases hsort : Arena.sortDescBy (fun c => c.ranker_score) candidates with _ | ⟨first, rest⟩
  · rw [hsort] at hsortlen
    simp at hsortlen
    omega
  · have hhead := Arena.sortDescBy_head_max (fun c => c.ranker_score)
      candidates first rest hsort
    have hrestmem : ∀ c ∈ rest, c ∈ candidates := by
      intro c hc
      have : c ∈ first :: rest := List.mem_cons_of_mem first hc
      rw [← hsort] at this
      exact (Arena.sortDescBy_perm (fun c => c.ranker_score) candidates).mem_iff.1 this
    have hlen := Arena.mmrLoop_length 0.6 k (by norm_num) (by norm_num)
      rest.length rest [first]
      (Arena.insertNew [] (Arena.pyStrOfGet first.metadata.domain))
      (Arena.insertNew [] (Arena.pyStrOfGet first.metadata.verdict_decision))
      (le_refl _) (by simpa using hk)
      (fun c hc => hpos c (hrestmem c hc))
    have hpre := Arena.mmrLoop_prefix 0.6 k rest.length [first] rest
      (Arena.insertNew [] (Arena.pyStrOfGet first.metadata.domain))
      (Arena.insertNew [] (Arena.pyStrOfGet first.metadata.verdict_decision))
    rcases hpre with ⟨t, ht⟩
    have hslen : first :: rest = Arena.sortDescBy (fun c => c.ranker_score) candidates :=
      hsort.symm
    have hlencand : 1 + rest.length = candidates.length := by
      have := hsortlen
      rw [hsort] at this
      simpa [Nat.add_comm] using this
    constructor
    · rw [Arena.mmr_select, if_neg (by simp [hnemp]), hsort]
      simp only [hlen, List.length_singleton]
      omega
    · refine ⟨first, t, ?_, hhead.1, hhead.2⟩
      rw [Arena.mmr_select, if_neg (by simp [hnemp]), hsort]
      simpa using ht

/-- Witness for `mmr_select_count_and_top` at two concrete candidates. -/
theorem mmr_select_count_and_top_witness :
    (1 ≤ 2 ∧ 2 ≤ [Arena.mmrCandA, Arena.mmrCandB].length ∧
      (∀ c ∈ [Arena.mmrCandA, Arena.mmrCandB], 0 ≤ c.ranker_score)) ∧
    ((Arena.mmr_select [Arena.mmrCandA, Arena.mmrCandB] [] 0.6 2).1.length = 2 ∧
      ∃ first rest,
        (Arena.mmr_select [Arena.mmrCandA, Arena.mmrCandB] [] 0.6 2).1 =
          first :: rest ∧
        first ∈ [Arena.mmrCandA, Arena.mmrCandB] ∧
        ∀ c ∈ [Arena.mmrCandA, Arena.mmrCandB],
          c.ranker_score ≤ first.ranker_score) :=
  ⟨⟨by norm_num, by norm_num,
      by
        intro c hc
        rcases List.mem_cons.1 hc with rfl | hc
        · norm_num [Arena.mmrCandA]
        · rcases List.mem_singleton.1 hc with rfl
          norm_num [Arena.mmrCandB]⟩,
    mmr_select_count_and_top [Arena.mmrCandA, Arena.mmrCandB] [] 2
      (by norm_num) (by norm_num)
      (by
        intro c hc
        rcases List.mem_cons.1 hc with rfl | hc
        · norm_num [Arena.mmrCandA]
        · rcases List.mem_singleton.1 hc with rfl
          norm_num [Arena.mmrCandB])⟩

/-- The `_diversity_rerank` selection loop appends every candidate it visits
while below `n_results`: under the loop guard the final `elif` is always
taken, so the loop is plain truncation of the sorted list. -/
theorem drLoop_take (n : Nat) :
    ∀ (l final : List Arena.HistCandidate) (uv ud : List (Option String)),
      Arena.drLoop n l final uv ud = final ++ l.take (n - final.length) := by
  intro l
  induction l with
  | nil =>
    intro final uv ud
    rw [Arena.drLoop]
    simp
  | cons c rest ih =>
    intro final uv ud
    rw [Arena.drLoop]
    by_cases hge : n ≤ final.length
    · rw [if_pos hge]
      have h0 : n - final.length = 0 := by omega
      rw [h0]
      simp
    · rw [if_neg hge]
      have harith : n - final.length = (n - (final.length + 1)) + 1 := by omega
      have happ : ∀ (uv2 ud2 : List (Option String)),
          Arena.drLoop n rest (final ++ [c]) uv2 ud2 =
            final ++ (c :: rest).take (n - final.length) := by
        intro uv2 ud2
        rw [ih]
        rw [List.length_append, List.length_singleton, harith, List.take_succ_cons]
        simp
      by_cases h0 : final.length = 0
      · rw [if_pos h0, happ]
      · rw [if_neg h0]
        by_cases hnew : ¬ uv.contains c.verdict_decision ∨ ¬ ud.contains c.domain
        · rw [if_pos hnew, happ]
        · rw [if_neg hnew, if_pos (Nat.lt_of_not_le hge), happ]

/-- C10: `_diversity_rerank` is extensionally sorting by `composite_score`
descending (stably) and truncating to `n_results`: its verdict/domain
diversity branching never changes which candidates are selected or their
order, the result holds exactly `min(n_results, len(candidates))` candidates,
and they appear in descending `composite_score` order. -/
theorem diversity_rerank_is_sort_and_truncate
    (candidates : List Arena.HistCandidate) (n_results : Nat)
    (primary_domain : Option String) :
    Arena.diversity_rerank candidates n_results primary_domain =
      (Arena.sortDescBy (fun c => c.composite_score) candidates).take n_results ∧
    (Arena.diversity_rerank candidates n_results primary_domain).length =
      min n_results candidates.length ∧
    (Arena.diversity_rerank candidates n_results primary_domain).Pairwise
      (fun a b => b.composite_score ≤ a.composite_score) := by
  have hmain : Arena.diversity_rerank candidates n_results primary_domain =
      (Arena.sortDescBy (fun c => c.composite_score) candidates).take n_results := by
    rw [Arena.diversity_rerank]
    by_cases hemp : candidates.isEmpty
    · rw [if_pos hemp]
      have hnil : candidates = [] := List.isEmpty_iff.1 hemp
      subst hnil
      simp [Arena.sortDescBy]
    · rw [if_neg hemp, drLoop_take]
      simp
  refine ⟨hmain, ?_, ?_⟩
  · rw [hmain, List.length_take,
      (Arena.sortDescBy_perm (fun c => c.composite_score) candidates).length_eq]
  · rw [hmain]
    exact (Arena.sortDescBy_pairwise (fun c => c.composite_score)
      candidates).sublist (List.take_sublist _ _)

/-- C4 counterexample: a candidate whose metadata dict has *no* `confidence`
key gets `confidence_weight = 0.5`, not `0.0`, because
`metadata.get("confidence", 0.5)` (ranking.py line 128) defaults the missing
key to `0.5` and `float(0.5 or 0.0) = 0.5`. -/
theorem build_feature_vector_absent_confidence_is_half :
    (Arena.build_feature_vector (fun _ => none) ⟨none, none, []⟩
        ⟨none, none, none, none⟩ [] none none none).confidence_weight = 1/2 ∧
    ((1 : ℝ)/2 ≠ 0) := by
  constructor
  · norm_num [Arena.build_feature_vector, Arena.pyFloatOrZero]
  · norm_num

/-- C4 (amended): `confidence_weight` is `0.5` when the metadata has no
`confidence` key at all, `0.0` when the stored value is `None` (or `0.0`),
and the stored value itself otherwise. -/
theorem build_feature_vector_confidence_weight (daysSince : String → Option Nat)
    (candidate : Arena.RankCandidateDict) (vd ts dm : Option String)
    (q : List ℝ) (ce : Option (List ℝ)) (idea_domain idea_text : Option String) :
    (Arena.build_feature_vector daysSince candidate ⟨vd, none, ts, dm⟩ q ce
        idea_domain idea_text).confidence_weight = 1/2 ∧
    (Arena.build_feature_vector daysSince candidate ⟨vd, some none, ts, dm⟩ q ce
        idea_domain idea_text).confidence_weight = 0 ∧
    ∀ v : ℝ,
      (Arena.build_feature_vector daysSince candidate ⟨vd, some (some v), ts, dm⟩
        q ce idea_domain idea_text).confidence_weight = if v = 0 then 0 else v := by
  refine ⟨?_, ?_, ?_⟩
  · norm_num [Arena.build_feature_vector, Arena.pyFloatOrZero]
  · simp [Arena.build_feature_vector, Arena.pyFloatOrZero]
  · intro v
    simp [Arena.build_feature_vector, Arena.pyFloatOrZero]

/-- C2 counterexample: `append_event` unconditionally writes
`round_status = "in_progress"` (arena.py line 1537), so appending the error
event after a failure — exactly what the failure handler does on
lines 2131–2138 — moves the terminal `round_status` back to `"in_progress"`. -/
theorem append_event_overwrites_terminal_round_status :
    Arena.failedSnapshot.round_status = some "failed" ∧
    (Arena.append_event Arena.failedSnapshot
        ⟨"System", none, "error", "Debate failed: boom"⟩ "t1").round_status =
      some "in_progress" ∧
    (Arena.handleDebateFailure Arena.pendingSnapshot "boom" "t1" "t2").round_status =
      some "in_progress" := by
  refine ⟨rfl, rfl, rfl⟩

/-- C2 (amended): the `status` field, once present (in particular once
`"completed"` or `"failed"`), is preserved by every `append_event`; but
`round_status` is *not* terminal: every `append_event` resets it to
`"in_progress"`, so the failure handler leaves the session with
`status = "failed"` and `round_status = "in_progress"`. -/
theorem append_event_preserves_status (s : Arena.DebateState)
    (event : Arena.TranscriptEvent) (now : String) (t : String)
    (hstatus : s.status = some t) :
    (Arena.append_event s event now).status = some t ∧
    (Arena.append_event s event now).round_status = some "in_progress" := by
  constructor
  · simp [Arena.append_event, hstatus]
  · simp [Arena.append_event]

/-- Witness for `append_event_preserves_status` on a failed snapshot. -/
theorem append_event_preserves_status_witness :
    Arena.failedSnapshot.status = some "failed" ∧
    ((Arena.append_event Arena.failedSnapshot
        ⟨"System", none, "error", "Debate failed: boom"⟩ "t1").status =
      some "failed" ∧
    (Arena.append_event Arena.failedSnapshot
        ⟨"System", none, "error", "Debate failed: boom"⟩ "t1").round_status =
      some "in_progress") :=
  ⟨rfl, append_event_preserves_status Arena.failedSnapshot
    ⟨"System", none, "error", "Debate failed: boom"⟩ "t1" "failed" rfl⟩

/-- C7: for every session state and exception, the failure handler sets
`status` to `"failed"`, records the exception text verbatim in the `error`
field, and only *appends* (the one error event) to the transcript — every
event accumulated up to the failure is still present, unchanged and in
place. -/
theorem handleDebateFailure_spec (s : Arena.DebateState)
    (errText now now2 : String) :
    (Arena.handleDebateFailure s errText now now2).status = some "failed" ∧
    (Arena.handleDebateFailure s errText now now2).error = some errText ∧
    (Arena.handleDebateFailure s errText now now2).transcript =
      s.transcript ++ [⟨"System", none, "error", "Debate failed: " ++ errText⟩] := by
  refine ⟨rfl, rfl, rfl⟩

/-- C9: the enrichment step always passes the keyword argument `idea_text`,
which `retrieve_similar_ideas` does not accept, so when the historical store
is enabled the call raises `TypeError` before the retrieval body runs; the
exception is swallowed and `historical_context_text` is always `""`.  The
outcome is independent of what the store would have returned, no precedents
are ever stored, and no `historical_context` event is ever appended. -/
theorem enrichment_retrieval_call_always_fails (s : Arena.DebateState)
    (enabled : Bool) (embedResult : Except String (List ℚ))
    (domainResult : Except String String)
    (retrieveBody retrieveBody2 : Except String (List Arena.Precedent))
    (fmt : List Arena.Precedent → String) (now : String) :
    (Arena.historicalEnrichment s enabled embedResult domainResult
        retrieveBody fmt now).2 = "" ∧
    (Arena.historicalEnrichment s enabled embedResult domainResult
        retrieveBody fmt now).1.historical_precedents = s.historical_precedents ∧
    (Arena.historicalEnrichment s enabled embedResult domainResult
        retrieveBody fmt now).1.transcript = s.transcript ∧
    Arena.historicalEnrichment s enabled embedResult domainResult
        retrieveBody fmt now =
      Arena.historicalEnrichment s enabled embedResult domainResult
        retrieveBody2 fmt now := by
  have hcall : ∀ body : Except String (List Arena.Precedent),
      Arena.executeDebateRetrieveCall body =
        .error "TypeError: unexpected keyword argument" := fun _ => rfl
  by_cases hen : enabled
  · rcases embedResult with e1 | emb
    · simp [Arena.historicalEnrichment, hen]
    · rcases domainResult with e2 | dom
      · simp [Arena.historicalEnrichment, hen]
      · simp [Arena.historicalEnrichment, hen, hcall]
  · simp [Arena.historicalEnrichment, hen]

/-- C8: no failure of the historical-enrichment step (embedding, domain
detection or retrieval) escapes — the step is a total function of its oracle
outcomes — and in every case, including a vector index that would return zero
candidates, execution continues with an empty historical context block and
the session's status fields, error field and transcript exactly as before the
step: the terminal status is determined by the remaining phases alone. -/
theorem enrichment_degrades_to_empty_context (s : Arena.DebateState)
    (enabled : Bool) (embedResult : Except String (List ℚ))
    (domainResult : Except String String)
    (retrieveBody : Except String (List Arena.Precedent))
    (fmt : List Arena.Precedent → String) (now : String) :
    (Arena.historicalEnrichment s enabled embedResult domainResult
        retrieveBody fmt now).2 = "" ∧
    (Arena.historicalEnrichment s enabled embedResult domainResult
        retrieveBody fmt now).1.status = s.status ∧
    (Arena.historicalEnrichment s enabled embedResult domainResult
        retrieveBody fmt now).1.round_status = s.round_status ∧
    (Arena.historicalEnrichment s enabled embedResult domainResult
        retrieveBody fmt now).1.error = s.error ∧
    (Arena.historicalEnrichment s enabled embedResult domainResult
        retrieveBody fmt now).1.transcript = s.transcript := by
  have hcall : ∀ body : Except String (List Arena.Precedent),
      Arena.executeDebateRetrieveCall body =
        .error "TypeError: unexpected keyword argument" := fun _ => rfl
  by_cases hen : enabled
  · rcases embedResult with e1 | emb
    · simp [Arena.historicalEnrichment, hen]
    · rcases domainResult with e2 | dom
      · simp [Arena.historicalEnrichment, hen]
      · simp [Arena.historicalEnrichment, hen, hcall]
  · simp [Arena.historicalEnrichment, hen]
